import Mathlib

/-
Verification of src/elftool/elftool.c (Solo5 application manifest tool).

The file shallowly embeds the three pipelines of the tool:
  - `elftool_generate` (command `gen`): JSON manifest document -> generated
    C source text declaring the binary manifest table;
  - `elftool_dump` (command `dump`): binary manifest table extracted from an
    executable -> JSON-shaped rendering;
  - `elftool_abi` (command `abi`): ABI note -> two-line scalar report.

The generic JSON reader (json.h), the note locator (elf.c) and the binary
table validator (mft.c) are not part of the elftool.c source; the pieces of
them that the claims need are modelled from the specification and carry a
doc comment saying so.  Format constants that live in headers outside the
source (MFT_VERSION, MFT_MAX_ENTRIES, MFT_NAME_MAX, MFT_RESERVED_FIRST, the
ABI target identifiers, SOLO5_VERSION) are parameters, collected in `Config`.
-/

set_option maxRecDepth 4000

namespace Elftool

/-- Generic JSON document tree, as produced by the external reader `jparse`
(json.h): typed nodes, objects addressable by key and iterable in source
order. -/
inductive JValue where
  | jnull
  | jtrue
  | jfalse
  | jstring (s : String)
  | jint (i : Int)
  | jreal
  | jarray (elems : List JValue)
  | jobject (members : List (String × JValue))

/-- Mirror of `jtypestr` in elftool.c. -/
def jtypestr : JValue → String
  | .jnull => "NULL"
  | .jtrue => "BOOLEAN"
  | .jfalse => "BOOLEAN"
  | .jstring _ => "STRING"
  | .jarray _ => "ARRAY"
  | .jobject _ => "OBJECT"
  | .jint _ => "INTEGER"
  | .jreal => "REAL"

/-- Format constants of the manifest/ABI formats.  They live in headers
(mft_abi.h, elf_abi.h, solo5_version.h) that are outside the source tree, so
they are kept abstract; every theorem quantifies over them. -/
structure Config where
  solo5Version : String
  MFT_VERSION : Int
  MFT_MAX_ENTRIES : Nat
  MFT_NAME_MAX : Nat
  MFT_RESERVED_FIRST : Nat
  kinds : List (Nat × String)
  HVT_ABI_TARGET : Int
  SPT_ABI_TARGET : Int
  VIRTIO_ABI_TARGET : Int
  MUEN_ABI_TARGET : Int
  GENODE_ABI_TARGET : Int

/-- Every `err`/`errx` exit taken by `elftool_generate`, one constructor per
distinct diagnostic. -/
inductive GenError where
  | cannotOpenSource
  | parseError
  | typeMismatch (loc expected got : String)
  | unknownKeyRoot (k : String)
  | missingVersion
  | missingDevices
  | invalidVersion (v : Int)
  | tooManyEntries
  | unknownKeyDevice (k : String)
  | missingName
  | emptyName
  | nameTooLong
  | nameNotAlnum
  | missingType
deriving DecidableEq

/-- The diagnostic text printed by `err`/`errx` for each rejection, following
the format strings in elftool.c. -/
def genErrorMessage (cfg : Config) : GenError → String
  | .cannotOpenSource => "Could not open"
  | .parseError => "JSON parse error"
  | .typeMismatch loc expected got => loc ++ ": expected " ++ expected ++ ", got " ++ got
  | .unknownKeyRoot k => "(root): unknown key: " ++ k
  | .missingVersion => "missing .version"
  | .missingDevices => "missing .devices[]"
  | .invalidVersion v =>
      ".version: invalid version " ++ toString v ++ ", expected " ++ toString cfg.MFT_VERSION
  | .tooManyEntries =>
      ".devices[]: too many entries, maximum " ++ toString cfg.MFT_MAX_ENTRIES
  | .unknownKeyDevice k => ".devices[...]: unknown key: " ++ k
  | .missingName => ".devices[...]: missing .name"
  | .emptyName => ".devices[...]: .name may not be empty"
  | .nameTooLong => ".devices[...]: name too long"
  | .nameNotAlnum => ".devices[...]: name is not alphanumeric"
  | .missingType => ".devices[...]: missing .type"

/-- The `out_header` template of elftool.c with its two `%d` fields filled by
the total entry count and `%s` by the version string. -/
def out_header (cfg : Config) (entries : Nat) : String :=
  "/* Generated by solo5-elftool version " ++ cfg.solo5Version ++ ", do not edit */\n\n" ++
  "#define MFT_ENTRIES " ++ toString entries ++ "\n" ++
  "#include \"mft_abi.h\"\n" ++
  "\n" ++
  "MFT1_NOTE_DECLARE_BEGIN\n" ++
  "\x7b\n" ++
  "  .version = MFT_VERSION, .entries = " ++ toString entries ++ ",\n" ++
  "  .e = \x7b\n" ++
  "    \x7b .name = \"\", .type = MFT_RESERVED_FIRST \x7d,\n"

/-- The `out_entry` template of elftool.c: one line per device. -/
def out_entry (name ty : String) : String :=
  "    \x7b .name = \"" ++ name ++ "\", .type = MFT_DEV_" ++ ty ++ " \x7d,\n"

/-- The `out_footer` template of elftool.c. -/
def out_footer : String :=
  "  \x7d\n\x7d\nMFT1_NOTE_DECLARE_END\n"

/-- The inner `for` loop of `elftool_generate` over the elements of a
`.devices` array: each element must be an object, and `entries` is
incremented per element. -/
def countDevObjects : List JValue → Nat → Except GenError Nat
  | [], entries => .ok entries
  | v :: rest, entries =>
    match v with
    | .jobject _ => countDevObjects rest (entries + 1)
    | _ => .error (.typeMismatch ".devices[]" "OBJECT" (jtypestr v))

/-- The first `for` loop of `elftool_generate` over the members of the root
object: records the last `version` and `devices` members (each occurrence is
type-checked), accumulates the entry count, and rejects unknown keys. -/
def scanRoot : List (String × JValue) → Option JValue → Option JValue → Nat →
    Except GenError (Option JValue × Option JValue × Nat)
  | [], jversion, jdevices, entries => .ok (jversion, jdevices, entries)
  | (k, v) :: rest, jversion, jdevices, entries =>
    if k = "version" then
      match v with
      | .jint i => scanRoot rest (some (.jint i)) jdevices entries
      | _ => .error (.typeMismatch ".version" "INTEGER" (jtypestr v))
    else if k = "devices" then
      match v with
      | .jarray es =>
        match countDevObjects es entries with
        | .error e => .error e
        | .ok entries2 => scanRoot rest jversion (some (.jarray es)) entries2
      | _ => .error (.typeMismatch ".devices" "ARRAY" (jtypestr v))
    else .error (.unknownKeyRoot k)

/-- The member loop inside the emission loop of `elftool_generate`: records
the last `name` and `type` members of a device object (each must be a
string), rejecting unknown keys. -/
def scanDevice : List (String × JValue) → Option String → Option String →
    Except GenError (Option String × Option String)
  | [], r_name, r_type => .ok (r_name, r_type)
  | (k, v) :: rest, r_name, r_type =>
    if k = "name" then
      match v with
      | .jstring s => scanDevice rest (some s) r_type
      | _ => .error (.typeMismatch ".devices[...]" "STRING" (jtypestr v))
    else if k = "type" then
      match v with
      | .jstring s => scanDevice rest r_name (some s)
      | _ => .error (.typeMismatch ".devices[...]" "STRING" (jtypestr v))
    else .error (.unknownKeyDevice k)

/-- The checks `elftool_generate` runs on the recorded name/type of one
device, in source order: missing name, empty name (`r_name[0] == 0`), name
longer than `MFT_NAME_MAX` bytes (`strlen`), non-alphanumeric byte
(`isalnum`), missing type.  The type string is taken verbatim. -/
def checkDeviceFields (cfg : Config) : Option String → Option String →
    Except GenError (String × String)
  | none, _ => .error .missingName
  | some n, r_type =>
    if n = "" then .error .emptyName
    else if cfg.MFT_NAME_MAX < n.utf8ByteSize then .error .nameTooLong
    else if n.data.all Char.isAlphanum then
      match r_type with
      | none => .error .missingType
      | some t => .ok (n, t)
    else .error .nameNotAlnum

/-- The emission loop of `elftool_generate`: validates each device of the
`.devices` array in order, appending one `out_entry` line per device to the
output already written; the first invalid device aborts, leaving the text
written so far in the output. -/
def emitDevices (cfg : Config) : List JValue → String → String × Except GenError Unit
  | [], acc => (acc, .ok ())
  | d :: rest, acc =>
    match d with
    | .jobject dm =>
      match scanDevice dm none none with
      | .error e => (acc, .error e)
      | .ok (r_name, r_type) =>
        match checkDeviceFields cfg r_name r_type with
        | .error e => (acc, .error e)
        | .ok (n, t) => emitDevices cfg rest (acc ++ out_entry n t)
    | _ => (acc, .error (.typeMismatch ".devices[]" "OBJECT" (jtypestr d)))

/-- Reading `jversion->u.i`: the integer payload of a JSON node. -/
def jintVal : JValue → Int
  | .jint i => i
  | _ => 0

/-- The element list of a JSON array node. -/
def jarrayElems : JValue → List JValue
  | .jarray es => es
  | _ => []

/-- `elftool_generate` from parse result to termination.  The input is the
result of `jparse` (`none` = JSON parse error); the output destination has
already been opened with mode "w" (truncated) at this point.  The first
component is the text committed to the output when the run ends, the second
the outcome. -/
def elftool_generate (cfg : Config) (root : Option JValue) :
    String × Except GenError Unit :=
  match root with
  | none => ("", .error .parseError)
  | some (.jobject ms) =>
    match scanRoot ms none none 1 with
    | .error e => ("", .error e)
    | .ok (jversion, jdevices, entries) =>
      match jversion with
      | none => ("", .error .missingVersion)
      | some jv =>
        match jdevices with
        | none => ("", .error .missingDevices)
        | some jd =>
          if jintVal jv ≠ cfg.MFT_VERSION then
            ("", .error (.invalidVersion (jintVal jv)))
          else if cfg.MFT_MAX_ENTRIES < entries then
            ("", .error .tooManyEntries)
          else
            match emitDevices cfg (jarrayElems jd) (out_header cfg entries) with
            | (w, .error e) => (w, .error e)
            | (w, .ok _) => (w ++ out_footer, .ok ())
  | some v => ("", .error (.typeMismatch "(root)" "OBJECT" (jtypestr v)))

/-- State of the SOURCE file as seen by `elftool_generate`: unreadable
(`fopen` fails, before the output is ever opened), or readable with a parse
result. -/
inductive SrcState where
  | unreadable
  | readable (parsed : Option JValue)

/-- `elftool_generate` including its file opening order: the source is opened
first (failure aborts with the output untouched), then the output is opened
with mode "w", which truncates it, and only then is the source parsed.  The
first component is the output file's content after the run (`none` = the
file does not exist), starting from `prevOut`. -/
def elftool_generate_fs (cfg : Config) (src : SrcState) (prevOut : Option String) :
    Option String × Except GenError Unit :=
  match src with
  | .unreadable => (prevOut, .error .cannotOpenSource)
  | .readable p => (some (elftool_generate cfg p).1, (elftool_generate cfg p).2)

/-- Exit status of a generate run: `errx`/`err` exit with 1, success returns
`EXIT_SUCCESS`. -/
def exitCode : Except GenError Unit → Nat
  | .ok _ => 0
  | .error _ => 1

/-- Concatenation of a list of strings (output rendered chunk by chunk). -/
def strConcat : List String → String
  | [] => ""
  | s :: rest => s ++ strConcat rest

/-- The name/type pair a device object denotes, read the way the emission
loop reads it (last occurrence of each key wins), with none of the
validity checks applied; `none` when the element is not an object, a member
is not a string, a key is unknown, or name/type is absent. -/
def tryRenderDevice : JValue → Option (String × String)
  | .jobject dm =>
    match scanDevice dm none none with
    | .ok (some n, some t) => some (n, t)
    | _ => none
  | _ => none

/-- The full generated text the emission phase is aiming for: header with the
scanned entry count, one line per renderable device of the (last) `.devices`
array, and the footer.  Any text `elftool_generate` commits is a prefix of
this. -/
def genFullTextOf (cfg : Config) (root : Option JValue) : String :=
  match root with
  | some (.jobject ms) =>
    match scanRoot ms none none 1 with
    | .ok (_, some jd, entries) =>
      out_header cfg entries ++
        strConcat ((jarrayElems jd).filterMap fun d =>
          (tryRenderDevice d).map fun p => out_entry p.1 p.2) ++
      out_footer
    | _ => ""
  | _ => ""

/-- The value of the last member with the given key in a member list (the
generate loops overwrite their record on every matching member). -/
def lastField : List (String × JValue) → String → Option JValue → Option JValue
  | [], _, acc => acc
  | (k, v) :: rest, key, acc => lastField rest key (if k = key then some v else acc)

/-- String payload of a JSON node, `none` for non-strings. -/
def jstringVal : JValue → Option String
  | .jstring s => some s
  | _ => none

/-- The string value of the last member with the given key (used to state
which name/type a device object carries). -/
def lastStringField : List (String × JValue) → String → Option String → Option String
  | [], _, acc => acc
  | (k, v) :: rest, key, acc => lastStringField rest key (if k = key then jstringVal v else acc)

/-- Total number of device elements contributed by all `devices` members of
the root (the scan loop adds every array's length to `entries`). -/
def devTotal : List (String × JValue) → Nat
  | [] => 0
  | (k, v) :: rest => (if k = "devices" then (jarrayElems v).length else 0) + devTotal rest

/-- Number of members with the given key. -/
def countKey : List (String × JValue) → String → Nat
  | [], _ => 0
  | (k, _) :: rest, key => (if k = key then 1 else 0) + countKey rest key

/-- The last `version` member of a root member list. -/
def lastVersion (ms : List (String × JValue)) : Option JValue :=
  lastField ms "version" none

/-- The last `devices` member of a root member list. -/
def lastDevices (ms : List (String × JValue)) : Option JValue :=
  lastField ms "devices" none

/-- A device name the schema accepts: non-empty, at most `MFT_NAME_MAX`
bytes, all characters alphanumeric. -/
def nameOk (cfg : Config) (n : String) : Prop :=
  n ≠ "" ∧ n.utf8ByteSize ≤ cfg.MFT_NAME_MAX ∧ n.data.all Char.isAlphanum = true

/-- Modelled from the spec: one fixed-size entry of the binary manifest
table (`struct mft_entry` of mft_abi.h, not under src/): a fixed-width name
and a numeric type code (spec section 3). -/
structure MftEntry where
  name : String
  type : Nat
deriving DecidableEq

/-- Modelled from the spec: the binary manifest table (`struct mft` of
mft_abi.h, not under src/): its own version and entry-count fields and the
ordered entry sequence, entry 0 being the reserved sentinel (spec section 3). -/
structure Mft where
  version : Int
  entries : Nat
  e : List MftEntry
deriving DecidableEq

/-- First name registered for a type code in the device-kind table. -/
def lookupName (kinds : List (Nat × String)) (t : Nat) : Option String :=
  match kinds with
  | [] => none
  | (c, n) :: rest => if c = t then some n else lookupName rest t

/-- First type code registered for a kind name in the device-kind table. -/
def lookupCode (kinds : List (Nat × String)) (s : String) : Option Nat :=
  match kinds with
  | [] => none
  | (c, n) :: rest => if n = s then some c else lookupCode rest s

/-- Modelled from the spec: `mft_type_to_string` (mft.c, not under src/),
the device-kind name table mapping a type code to its human-readable name
(spec section 6). -/
def mft_type_to_string (cfg : Config) (t : Nat) : String :=
  (lookupName cfg.kinds t).getD "unknown"

/-- Modelled from the spec: `mft_validate` (mft.c, not under src/).  Spec
sections 3 and 6: rejects when the blob size is inconsistent with the
declared entry count (here: the physical entry list length differs from the
`entries` field), when `entries` exceeds `MFT_MAX_ENTRIES`, when the version
is not the one supported constant, when entry 0 is not the reserved-first
sentinel, or when any other entry's type is not a recognized device kind
below the reserved-type threshold. -/
def mft_validate (cfg : Config) (m : Mft) : Bool :=
  decide (m.e.length = m.entries) &&
  decide (m.entries ≤ cfg.MFT_MAX_ENTRIES) &&
  decide (m.version = cfg.MFT_VERSION) &&
  (match m.e with
   | [] => false
   | e0 :: rest =>
     decide (e0.type = cfg.MFT_RESERVED_FIRST) &&
     rest.all fun en =>
       decide (en.type < cfg.MFT_RESERVED_FIRST) && (lookupName cfg.kinds en.type).isSome)

/-- Result of one tool pipeline: text printed to stdout, exit status,
whether the process aborted through `err`/`errx` (as opposed to returning a
failure status), the `warnx`/`errx` diagnostic if any, and whether the
note blob was freed. -/
structure ToolOut where
  printed : String
  exit : Nat
  aborted : Bool
  message : Option String
  freed : Bool
deriving DecidableEq

/-- Rendering of an integer by printf `%u` (conversion to `unsigned int`). -/
def uFmt (i : Int) : String := toString ((i % (2 ^ 32)).toNat)

/-- The first printf of `elftool_dump`: document opening with the `version`
field (printed from the `MFT_VERSION` constant). -/
def dumpHeaderText (cfg : Config) : String :=
  "\x7b\n    \"version\": " ++ uFmt cfg.MFT_VERSION ++ ",\n    \"devices\": [\n"

/-- The closing printf of `elftool_dump`. -/
def dumpFooterText : String := "    ]\n\x7d\n"

/-- The `warnx` diagnostic of `elftool_dump` when no manifest note exists. -/
def noManifestMsg : String := "No Solo5 manifest found in executable"

/-- The `warnx` diagnostic of `elftool_dump` when `mft_validate` rejects. -/
def validationFailedMsg : String := "Manifest validation failed"

/-- One iteration of the `elftool_dump` entry loop: entries at or above the
reserved-type threshold are skipped; others print a `name`/`type` line, with
a trailing comma unless this is the last entry of the table. -/
def dumpEntryLine (cfg : Config) (total : Nat) (i : Nat) (en : MftEntry) : String :=
  if cfg.MFT_RESERVED_FIRST ≤ en.type then ""
  else
    "        \x7b \"name\": \"" ++ en.name ++ "\", \"type\": \"" ++
      mft_type_to_string cfg en.type ++ "\" \x7d" ++
      (if i = total - 1 then "" else ",") ++ "\n"

/-- The `elftool_dump` entry loop from index `i` on. -/
def dumpEntriesFrom (cfg : Config) (total : Nat) : Nat → List MftEntry → String
  | _, [] => ""
  | i, en :: rest => dumpEntryLine cfg total i en ++ dumpEntriesFrom cfg total (i + 1) rest

/-- Everything the `elftool_dump` entry loop prints for a table. -/
def dumpBody (cfg : Config) (m : Mft) : String := dumpEntriesFrom cfg m.entries 0 m.e

/-- `elftool_dump` after the executable has been opened.  The input is what
the note locator `elf_load_note` returned (`none` = no manifest note).  Both
failure paths return `EXIT_FAILURE` without printing any rendering and
without aborting the process. -/
def elftool_dump (cfg : Config) (note : Option Mft) : ToolOut :=
  match note with
  | none => ⟨"", 1, false, some noManifestMsg, false⟩
  | some m =>
    if mft_validate cfg m then
      ⟨dumpHeaderText cfg ++ dumpBody cfg m ++ dumpFooterText, 0, false, none, true⟩
    else
      ⟨"", 1, false, some validationFailedMsg, true⟩

/-- Modelled from the spec: the ABI-identification record (`struct
abi1_info` of elf_abi.h, not under src/): target platform identifier and
unsigned interface version (spec section 3). -/
structure Abi1Info where
  abi_target : Int
  abi_version : Nat

/-- Mirror of `abi_target_to_string` in elftool.c: the five recognized
platform identifiers map to their names, everything else to "unknown". -/
def abi_target_to_string (cfg : Config) (t : Int) : String :=
  if t = cfg.HVT_ABI_TARGET then "hvt"
  else if t = cfg.SPT_ABI_TARGET then "spt"
  else if t = cfg.VIRTIO_ABI_TARGET then "virtio"
  else if t = cfg.MUEN_ABI_TARGET then "muen"
  else if t = cfg.GENODE_ABI_TARGET then "genode"
  else "unknown"

/-- The `errx` diagnostic of `elftool_abi` when the ABI note is absent. -/
def noAbiMsg : String := "No Solo5 ABI information found in executable"

/-- `elftool_abi` after the executable has been opened.  A missing ABI note
aborts the process through `errx` (unlike `elftool_dump`'s missing-manifest
path); otherwise the two fields are printed and the run succeeds. -/
def elftool_abi (cfg : Config) (note : Option Abi1Info) : ToolOut :=
  match note with
  | none => ⟨"", 1, true, some noAbiMsg, false⟩
  | some a =>
    ⟨"ABI target: " ++ abi_target_to_string cfg a.abi_target ++ "\n" ++
       "ABI version: " ++ toString (a.abi_version % 2 ^ 32) ++ "\n",
     0, false, none, true⟩

/-- Modelled from the spec: the binary table that results from compiling the
generated source downstream and embedding it as the manifest note — the
implicit reserved sentinel followed by one entry per declared device, names
verbatim, type strings mapped through the device-kind table (spec sections
3, 6 and 9). -/
def tableOfPairs (cfg : Config) (L : List (String × String)) : Mft :=
  { version := cfg.MFT_VERSION
    entries := 1 + L.length
    e := ⟨"", cfg.MFT_RESERVED_FIRST⟩ ::
      (L.map fun p => ⟨p.1, (lookupCode cfg.kinds p.2).getD 0⟩) }

/-- A device declaration in document form: `(name, type)` as an object. -/
def deviceJson (n t : String) : JValue :=
  .jobject [("name", .jstring n), ("type", .jstring t)]

/-- A manifest document in the shape the compiler consumes:
version plus the devices array. -/
def manifestJson (v : Int) (L : List (String × String)) : JValue :=
  .jobject [("version", .jint v), ("devices", .jarray (L.map fun p => deviceJson p.1 p.2))]

/-- The `(name, type)` pairs of a document's (last) `devices` array, read
the way the compiler reads them. -/
def docPairs (root : JValue) : Option (List (String × String)) :=
  match root with
  | .jobject ms =>
    match lastDevices ms with
    | some jd => some ((jarrayElems jd).filterMap tryRenderDevice)
    | none => none
  | _ => none

/-- One line of `elftool_dump`'s device rendering for a name/type pair. -/
def dumpDeviceLine (n t : String) (comma : Bool) : String :=
  "        \x7b \"name\": \"" ++ n ++ "\", \"type\": \"" ++ t ++ "\" \x7d" ++
    (if comma then "," else "") ++ "\n"

/-- `elftool_dump`'s rendering of a device pair list: every line but the
last carries the trailing comma. -/
def dumpPairsText : List (String × String) → String
  | [] => ""
  | [p] => dumpDeviceLine p.1 p.2 false
  | p :: q :: rest => dumpDeviceLine p.1 p.2 true ++ dumpPairsText (q :: rest)

/-- Concrete instantiation of the format constants used to evaluate the
theorems on closed inputs (values as in the Solo5 0.6 era headers; the
theorems themselves quantify over the constants). -/
def cfg0 : Config :=
  { solo5Version := "0.6.5"
    MFT_VERSION := 1
    MFT_MAX_ENTRIES := 64
    MFT_NAME_MAX := 67
    MFT_RESERVED_FIRST := 1073741824
    kinds := [(1, "BLOCK_BASIC"), (2, "NET_BASIC")]
    HVT_ABI_TARGET := 10
    SPT_ABI_TARGET := 11
    VIRTIO_ABI_TARGET := 12
    MUEN_ABI_TARGET := 13
    GENODE_ABI_TARGET := 14 }

/-- `cfg0` with a maximum entry count of 1, to exercise the entry-count
check on tiny documents. -/
def cfgSmall : Config := { cfg0 with MFT_MAX_ENTRIES := 1 }

/-- `cfg0` with a maximum name length of 2, to exercise the name-length
check on tiny documents. -/
def cfgShortName : Config := { cfg0 with MFT_NAME_MAX := 2 }

/-- The document's `devices` field (its last `devices` member) holds a
device object whose name (last `name` member, a string) violates the name
schema: empty, longer than `MFT_NAME_MAX` bytes, or not alphanumeric. -/
def hasBadName (cfg : Config) (ms : List (String × JValue)) : Prop :=
  ∃ jd, lastDevices ms = some jd ∧
    ∃ d ∈ jarrayElems jd, ∃ dm, d = JValue.jobject dm ∧
      ∃ s, lastStringField dm "name" none = some s ∧ ¬ nameOk cfg s

/-- The root object holds a member whose key is neither `version` nor
`devices`. -/
def hasUnknownRootKey (ms : List (String × JValue)) : Prop :=
  ∃ p ∈ ms, p.1 ≠ "version" ∧ p.1 ≠ "devices"

/-- The document's `devices` field holds a device object with a member whose
key is neither `name` nor `type`. -/
def hasUnknownDeviceKey (ms : List (String × JValue)) : Prop :=
  ∃ jd, lastDevices ms = some jd ∧
    ∃ d ∈ jarrayElems jd, ∃ dm, d = JValue.jobject dm ∧
      ∃ q ∈ dm, q.1 ≠ "name" ∧ q.1 ≠ "type"

/-- The violation classes of the rejection-completeness property, stated on
the members of a root object: missing `.version`, a `.version` different
from the supported constant, missing `.devices`, a total entry count
(1 + number of devices) above the maximum, a schema-violating device name,
or an unknown top-level or device key. -/
def Violation (cfg : Config) (ms : List (String × JValue)) : Prop :=
  lastVersion ms = none ∨
  (∃ v, lastVersion ms = some v ∧ v ≠ JValue.jint cfg.MFT_VERSION) ∨
  lastDevices ms = none ∨
  (∃ es, lastDevices ms = some (JValue.jarray es) ∧ cfg.MFT_MAX_ENTRIES < 1 + es.length) ∨
  hasBadName cfg ms ∨
  hasUnknownRootKey ms ∨
  hasUnknownDeviceKey ms

/-! Inversion lemmas for the loops of `elftool_generate`. -/

lemma countDevObjects_ok {es : List JValue} {n m : Nat}
    (h : countDevObjects es n = .ok m) :
    m = n + es.length ∧ ∀ x ∈ es, ∃ dm, x = JValue.jobject dm := by
  induction es generalizing n with
  | nil =>
    simp only [countDevObjects, Except.ok.injEq] at h
    simp [h]
  | cons x rest ih =>
    cases x with
    | jobject dm =>
      simp only [countDevObjects] at h
      obtain ⟨h1, h2⟩ := ih h
      refine ⟨by simp only [List.length_cons]; omega, ?_⟩
      intro y hy
      rcases List.mem_cons.mp hy with hy | hy
      · exact ⟨dm, hy⟩
      · exact h2 y hy
    | jnull => simp [countDevObjects] at h
    | jtrue => simp [countDevObjects] at h
    | jfalse => simp [countDevObjects] at h
    | jstring s => simp [countDevObjects] at h
    | jint i => simp [countDevObjects] at h
    | jreal => simp [countDevObjects] at h
    | jarray es2 => simp [countDevObjects] at h

lemma scanRoot_ok {ms : List (String × JValue)} {jv jd : Option JValue} {en : Nat}
    {v d : Option JValue} {e : Nat}
    (h : scanRoot ms jv jd en = .ok (v, d, e)) :
    v = lastField ms "version" jv ∧
    d = lastField ms "devices" jd ∧
    e = en + devTotal ms ∧
    (∀ p ∈ ms, p.1 = "version" ∨ p.1 = "devices") ∧
    (∀ p ∈ ms, p.1 = "version" → ∃ i : Int, p.2 = JValue.jint i) ∧
    (∀ p ∈ ms, p.1 = "devices" →
      ∃ es, p.2 = JValue.jarray es ∧ ∀ x ∈ es, ∃ dm, x = JValue.jobject dm) := by
  induction ms generalizing jv jd en with
  | nil =>
    simp only [scanRoot, Except.ok.injEq, Prod.mk.injEq] at h
    obtain ⟨h1, h2, h3⟩ := h
    subst h1; subst h2; subst h3
    simp [lastField, devTotal]
  | cons p rest ih =>
    obtain ⟨k, val⟩ := p
    by_cases hk : k = "version"
    · subst hk
      cases val with
      | jint i =>
        simp only [scanRoot, reduceIte] at h
        obtain ⟨ih1, ih2, ih3, ih4, ih5, ih6⟩ := ih h
        refine ⟨?_, ?_, ?_, ?_, ?_, ?_⟩
        · simpa [lastField] using ih1
        · simpa [lastField] using ih2
        · simpa [devTotal] using ih3
        · intro q hq
          rcases List.mem_cons.mp hq with hq | hq
          · subst hq; left; rfl
          · exact ih4 q hq
        · intro q hq hq2
          rcases List.mem_cons.mp hq with hq | hq
          · subst hq; exact ⟨i, rfl⟩
          · exact ih5 q hq hq2
        · intro q hq hq2
          rcases List.mem_cons.mp hq with hq | hq
          · subst hq; simp at hq2
          · exact ih6 q hq hq2
      | jnull => simp [scanRoot] at h
      | jtrue => simp [scanRoot] at h
      | jfalse => simp [scanRoot] at h
      | jstring s => simp [scanRoot] at h
      | jreal => simp [scanRoot] at h
      | jarray es => simp [scanRoot] at h
      | jobject dm => simp [scanRoot] at h
    · by_cases hk2 : k = "devices"
      · subst hk2
        cases val with
        | jarray es =>
          simp only [scanRoot, hk, reduceIte] at h
          cases hc : countDevObjects es en with
          | error e2 => rw [hc] at h; simp at h
          | ok en2 =>
            rw [hc] at h
            obtain ⟨hc1, hc2⟩ := countDevObjects_ok hc
            obtain ⟨ih1, ih2, ih3, ih4, ih5, ih6⟩ := ih h
            refine ⟨?_, ?_, ?_, ?_, ?_, ?_⟩
            · simpa [lastField, hk] using ih1
            · simpa [lastField] using ih2
            · subst hc1; simp only [devTotal, jarrayElems, reduceIte] at *; omega
            · intro q hq
              rcases List.mem_cons.mp hq with hq | hq
              · subst hq; right; rfl
              · exact ih4 q hq
            · intro q hq hq2
              rcases List.mem_cons.mp hq with hq | hq
              · subst hq; simp at hq2
              · exact ih5 q hq hq2
            · intro q hq hq2
              rcases List.mem_cons.mp hq with hq | hq
              · subst hq; exact ⟨es, rfl, hc2⟩
              · exact ih6 q hq hq2
        | jnull => simp [scanRoot, hk] at h
        | jtrue => simp [scanRoot, hk] at h
        | jfalse => simp [scanRoot, hk] at h
        | jstring s => simp [scanRoot, hk] at h
        | jint i => simp [scanRoot, hk] at h
        | jreal => simp [scanRoot, hk] at h
        | jobject dm => simp [scanRoot, hk] at h
      · simp [scanRoot, hk, hk2] at h

lemma scanDevice_ok {dm : List (String × JValue)} {rn rt n t : Option String}
    (h : scanDevice dm rn rt = .ok (n, t)) :
    (∀ q ∈ dm, q.1 = "name" ∨ q.1 = "type") ∧
    (∀ q ∈ dm, ∃ s, q.2 = JValue.jstring s) ∧
    n = lastStringField dm "name" rn ∧
    t = lastStringField dm "type" rt := by
  induction dm generalizing rn rt with
  | nil =>
    simp only [scanDevice, Except.ok.injEq, Prod.mk.injEq] at h
    obtain ⟨h1, h2⟩ := h
    subst h1; subst h2
    simp [lastStringField]
  | cons q rest ih =>
    obtain ⟨k, val⟩ := q
    by_cases hk : k = "name"
    · subst hk
      cases val with
      | jstring s =>
        simp only [scanDevice, reduceIte] at h
        obtain ⟨ih1, ih2, ih3, ih4⟩ := ih h
        refine ⟨?_, ?_, ?_, ?_⟩
        · intro q hq
          rcases List.mem_cons.mp hq with hq | hq
          · subst hq; left; rfl
          · exact ih1 q hq
        · intro q hq
          rcases List.mem_cons.mp hq with hq | hq
          · subst hq; exact ⟨s, rfl⟩
          · exact ih2 q hq
        · simpa [lastStringField, jstringVal] using ih3
        · simpa [lastStringField] using ih4
      | jnull => simp [scanDevice] at h
      | jtrue => simp [scanDevice] at h
      | jfalse => simp [scanDevice] at h
      | jint i => simp [scanDevice] at h
      | jreal => simp [scanDevice] at h
      | jarray es => simp [scanDevice] at h
      | jobject dm2 => simp [scanDevice] at h
    · by_cases hk2 : k = "type"
      · subst hk2
        cases val with
        | jstring s =>
          simp only [scanDevice, hk, reduceIte] at h
          obtain ⟨ih1, ih2, ih3, ih4⟩ := ih h
          refine ⟨?_, ?_, ?_, ?_⟩
          · intro q hq
            rcases List.mem_cons.mp hq with hq | hq
            · subst hq; right; rfl
            · exact ih1 q hq
          · intro q hq
            rcases List.mem_cons.mp hq with hq | hq
            · subst hq; exact ⟨s, rfl⟩
            · exact ih2 q hq
          · simpa [lastStringField, hk] using ih3
          · simpa [lastStringField, jstringVal] using ih4
        | jnull => simp [scanDevice, hk] at h
        | jtrue => simp [scanDevice, hk] at h
        | jfalse => simp [scanDevice, hk] at h
        | jint i => simp [scanDevice, hk] at h
        | jreal => simp [scanDevice, hk] at h
        | jarray es => simp [scanDevice, hk] at h
        | jobject dm2 => simp [scanDevice, hk] at h
      · simp [scanDevice, hk, hk2] at h

lemma checkDeviceFields_ok {cfg : Config} {rn rt : Option String} {n t : String}
    (h : checkDeviceFields cfg rn rt = .ok (n, t)) :
    rn = some n ∧ rt = some t ∧ nameOk cfg n := by
  match rn with
  | none => simp [checkDeviceFields] at h
  | some s =>
    simp only [checkDeviceFields] at h
    by_cases h1 : s = ""
    · simp [h1] at h
    · rw [if_neg h1] at h
      by_cases h2 : cfg.MFT_NAME_MAX < s.utf8ByteSize
      · simp [h2] at h
      · rw [if_neg h2] at h
        by_cases h3 : s.data.all Char.isAlphanum
        · rw [if_pos h3] at h
          match rt with
          | none => simp at h
          | some t2 =>
            simp only [Except.ok.injEq, Prod.mk.injEq] at h
            obtain ⟨ha, hb⟩ := h
            subst ha; subst hb
            exact ⟨rfl, rfl, h1, by omega, h3⟩
        · simp [h3] at h

lemma emitDevices_ok {cfg : Config} {ds : List JValue} {acc w : String}
    (h : emitDevices cfg ds acc = (w, .ok ())) :
    ∃ L : List (String × String),
      ds.map tryRenderDevice = L.map some ∧
      (∀ p ∈ L, nameOk cfg p.1) ∧
      w = acc ++ strConcat (L.map fun p => out_entry p.1 p.2) := by
  induction ds generalizing acc with
  | nil =>
    simp only [emitDevices, Prod.mk.injEq] at h
    exact ⟨[], by simp, by simp, by simp [strConcat, h.1.symm, String.append_empty]⟩
  | cons d rest ih =>
    cases d with
    | jobject dm =>
      simp only [emitDevices] at h
      cases hscan : scanDevice dm none none with
      | error e => simp [hscan] at h
      | ok p =>
        obtain ⟨rn, rt⟩ := p
        simp only [hscan] at h
        cases hchk : checkDeviceFields cfg rn rt with
        | error e => simp [hchk] at h
        | ok q =>
          obtain ⟨n, t⟩ := q
          simp only [hchk] at h
          obtain ⟨hrn, hrt, hok⟩ := checkDeviceFields_ok hchk
          obtain ⟨L, hL1, hL2, hL3⟩ := ih h
          refine ⟨(n, t) :: L, ?_, ?_, ?_⟩
          · simp only [List.map_cons, hL1, List.cons.injEq]
            refine ⟨?_, trivial⟩
            simp [tryRenderDevice, hscan, hrn, hrt]
          · intro p hp
            rcases List.mem_cons.mp hp with hp | hp
            · subst hp; exact hok
            · exact hL2 p hp
          · rw [hL3]
            simp [strConcat, String.append_assoc]
    | jnull => simp [emitDevices] at h
    | jtrue => simp [emitDevices] at h
    | jfalse => simp [emitDevices] at h
    | jstring s => simp [emitDevices] at h
    | jint i => simp [emitDevices] at h
    | jreal => simp [emitDevices] at h
    | jarray es => simp [emitDevices] at h

lemma emitDevices_err {cfg : Config} {ds : List JValue} {acc w : String} {e : GenError}
    (h : emitDevices cfg ds acc = (w, .error e)) :
    ∃ (L : List (String × String)) (ds₁ ds₂ : List JValue),
      ds = ds₁ ++ ds₂ ∧
      ds₁.map tryRenderDevice = L.map some ∧
      w = acc ++ strConcat (L.map fun p => out_entry p.1 p.2) := by
  induction ds generalizing acc with
  | nil => simp [emitDevices] at h
  | cons d rest ih =>
    cases d with
    | jobject dm =>
      simp only [emitDevices] at h
      cases hscan : scanDevice dm none none with
      | error e2 =>
        simp only [hscan, Prod.mk.injEq] at h
        exact ⟨[], [], JValue.jobject dm :: rest, rfl, rfl,
          by simp [strConcat, h.1.symm, String.append_empty]⟩
      | ok p =>
        obtain ⟨rn, rt⟩ := p
        simp only [hscan] at h
        cases hchk : checkDeviceFields cfg rn rt with
        | error e2 =>
          simp only [hchk, Prod.mk.injEq] at h
          exact ⟨[], [], JValue.jobject dm :: rest, rfl, rfl,
            by simp [strConcat, h.1.symm, String.append_empty]⟩
        | ok q =>
          obtain ⟨n, t⟩ := q
          simp only [hchk] at h
          obtain ⟨hrn, hrt, hok⟩ := checkDeviceFields_ok hchk
          obtain ⟨L, ds₁, ds₂, hsplit, hmap, hw⟩ := ih h
          refine ⟨(n, t) :: L, JValue.jobject dm :: ds₁, ds₂, by rw [hsplit]; rfl, ?_, ?_⟩
          · simp only [List.map_cons, hmap, List.cons.injEq]
            refine ⟨?_, trivial⟩
            simp [tryRenderDevice, hscan, hrn, hrt]
          · rw [hw]
            simp [strConcat, String.append_assoc]
    | jnull =>
      simp only [emitDevices, Prod.mk.injEq] at h
      exact ⟨[], [], JValue.jnull :: rest, rfl, rfl,
        by simp [strConcat, h.1.symm, String.append_empty]⟩
    | jtrue =>
      simp only [emitDevices, Prod.mk.injEq] at h
      exact ⟨[], [], JValue.jtrue :: rest, rfl, rfl,
        by simp [strConcat, h.1.symm, String.append_empty]⟩
    | jfalse =>
      simp only [emitDevices, Prod.mk.injEq] at h
      exact ⟨[], [], JValue.jfalse :: rest, rfl, rfl,
        by simp [strConcat, h.1.symm, String.append_empty]⟩
    | jstring s =>
      simp only [emitDevices, Prod.mk.injEq] at h
      exact ⟨[], [], JValue.jstring s :: rest, rfl, rfl,
        by simp [strConcat, h.1.symm, String.append_empty]⟩
    | jint i =>
      simp only [emitDevices, Prod.mk.injEq] at h
      exact ⟨[], [], JValue.jint i :: rest, rfl, rfl,
        by simp [strConcat, h.1.symm, String.append_empty]⟩
    | jreal =>
      simp only [emitDevices, Prod.mk.injEq] at h
      exact ⟨[], [], JValue.jreal :: rest, rfl, rfl,
        by simp [strConcat, h.1.symm, String.append_empty]⟩
    | jarray es =>
      simp only [emitDevices, Prod.mk.injEq] at h
      exact ⟨[], [], JValue.jarray es :: rest, rfl, rfl,
        by simp [strConcat, h.1.symm, String.append_empty]⟩

/-! Helper lemmas on the output text shapes. -/

lemma strConcat_append (l1 l2 : List String) :
    strConcat (l1 ++ l2) = strConcat l1 ++ strConcat l2 := by
  induction l1 with
  | nil => simp [strConcat, String.empty_append]
  | cons s rest ih => simp [strConcat, ih, String.append_assoc]

lemma out_header_endsComma (cfg : Config) (n : Nat) :
    ∃ u, out_header cfg n = u ++ ",\n" := by
  have hlit : ("    \x7b .name = \"\", .type = MFT_RESERVED_FIRST \x7d,\n" : String) =
      "    \x7b .name = \"\", .type = MFT_RESERVED_FIRST \x7d" ++ ",\n" := rfl
  unfold out_header
  rw [hlit, ← String.append_assoc]
  exact ⟨_, rfl⟩

lemma out_entry_endsComma (n t : String) :
    ∃ u, out_entry n t = u ++ ",\n" := by
  have hlit : (" \x7d,\n" : String) = " \x7d" ++ ",\n" := rfl
  unfold out_entry
  rw [hlit, ← String.append_assoc]
  exact ⟨_, rfl⟩

lemma endsComma_append_concat (L : List (String × String)) :
    ∀ acc : String, (∃ u, acc = u ++ ",\n") →
      ∃ u, acc ++ strConcat (L.map fun p => out_entry p.1 p.2) = u ++ ",\n" := by
  induction L with
  | nil =>
    intro acc h
    simpa [strConcat, String.append_empty] using h
  | cons p rest ih =>
    intro acc _
    have h2 : ∃ u, acc ++ out_entry p.1 p.2 = u ++ ",\n" := by
      obtain ⟨u, hu⟩ := out_entry_endsComma p.1 p.2
      exact ⟨acc ++ u, by rw [hu, ← String.append_assoc]⟩
    have h3 := ih (acc ++ out_entry p.1 p.2) h2
    simpa [strConcat, String.append_assoc] using h3

lemma comma_ne_footer (a b : String) : a ++ ",\n" ≠ b ++ out_footer := by
  intro h
  have h2 : (",\n" : String).data.reverse ++ a.data.reverse
      = out_footer.data.reverse ++ b.data.reverse := by
    have h3 := congrArg (fun s => s.data.reverse) h
    simpa [String.data_append, List.reverse_append] using h3
  have hcomma : (",\n" : String).data.reverse = ['\n', ','] := rfl
  have hfoot : out_footer.data.reverse =
      ['\n', 'D', 'N', 'E', '_', 'E', 'R', 'A', 'L', 'C', 'E', 'D', '_', 'E', 'T', 'O',
        'N', '_', '1', 'T', 'F', 'M', '\n', '\x7d', '\n', '\x7d', ' ', ' '] := rfl
  rw [hcomma, hfoot] at h2
  simp only [List.cons_append, List.nil_append, List.cons.injEq] at h2
  exact absurd h2.2.1 (by decide)

lemma empty_ne_footer (b : String) : "" ≠ b ++ out_footer := by
  intro h
  have h2 := congrArg String.length h
  rw [String.length_append] at h2
  have h3 : ("" : String).length = 0 := rfl
  have h4 : 0 < out_footer.length := by decide
  omega

lemma filterMap_of_map_some {α β γ : Type} {g : α → Option β} {f : β → γ}
    {ds : List α} {L : List β} (h : ds.map g = L.map some) :
    ds.filterMap (fun d => (g d).map f) = L.map f := by
  induction ds generalizing L with
  | nil =>
    cases L with
    | nil => simp
    | cons p Lrest => simp at h
  | cons d rest ih =>
    cases L with
    | nil => simp at h
    | cons p Lrest =>
      simp only [List.map_cons, List.cons.injEq] at h
      obtain ⟨h1, h2⟩ := h
      simp [List.filterMap_cons, h1, ih h2]

lemma lastField_mem {ms : List (String × JValue)} {key : String} {acc : Option JValue}
    {x : JValue} (h : lastField ms key acc = some x) :
    (key, x) ∈ ms ∨ acc = some x := by
  induction ms generalizing acc with
  | nil => right; exact h
  | cons p rest ih =>
    obtain ⟨k, v⟩ := p
    simp only [lastField] at h
    rcases ih h with h2 | h2
    · left; exact List.mem_cons.mpr (Or.inr h2)
    · by_cases hk : k = key
      · subst hk
        rw [if_pos rfl] at h2
        obtain hx := Option.some.inj h2
        left
        exact List.mem_cons.mpr (Or.inl (by rw [hx]))
      · rw [if_neg hk] at h2
        right; exact h2

lemma mem_devTotal {ms : List (String × JValue)} {v : JValue}
    (h : ("devices", v) ∈ ms) : (jarrayElems v).length ≤ devTotal ms := by
  induction ms with
  | nil => simp at h
  | cons p rest ih =>
    obtain ⟨k, w⟩ := p
    rcases List.mem_cons.mp h with h2 | h2
    · obtain ⟨hk, hw⟩ := Prod.mk.injEq .. ▸ h2.symm
      simp only [devTotal, hk.symm, reduceIte, hw]
      omega
    · have h3 := ih h2
      simp only [devTotal]
      by_cases hk : k = "devices" <;> simp [hk] <;> omega

lemma countKey_zero_lastField {ms : List (String × JValue)} {key : String}
    {acc : Option JValue} (h : countKey ms key = 0) : lastField ms key acc = acc := by
  induction ms generalizing acc with
  | nil => rfl
  | cons p rest ih =>
    obtain ⟨k, v⟩ := p
    simp only [countKey] at h
    by_cases hk : k = key
    · simp [hk] at h
    · simp only [lastField, if_neg hk]
      exact ih (by omega)

lemma countKey_zero_devTotal {ms : List (String × JValue)}
    (h : countKey ms "devices" = 0) : devTotal ms = 0 := by
  induction ms with
  | nil => rfl
  | cons p rest ih =>
    obtain ⟨k, v⟩ := p
    simp only [countKey] at h
    simp only [devTotal]
    by_cases hk : k = "devices"
    · simp [hk] at h
    · simp only [if_neg hk]
      rw [if_neg hk] at h
      simp [ih (by omega)]

lemma devTotal_single {ms : List (String × JValue)} {v : JValue}
    (h1 : countKey ms "devices" = 1) (h2 : lastField ms "devices" none = some v) :
    devTotal ms = (jarrayElems v).length := by
  induction ms with
  | nil => simp [lastField] at h2
  | cons p rest ih =>
    obtain ⟨k, x⟩ := p
    simp only [countKey] at h1
    simp only [lastField] at h2
    simp only [devTotal]
    by_cases hk : k = "devices"
    · rw [if_pos hk] at h1 h2 ⊢
      have hz : countKey rest "devices" = 0 := by omega
      rw [countKey_zero_lastField hz] at h2
      obtain hx := Option.some.inj h2
      rw [countKey_zero_devTotal hz, hx]
      omega
    · rw [if_neg hk] at h1 h2 ⊢
      simp [ih (by omega) h2]

/-! Characterization of `elftool_generate` runs: one equation lemma per
exit path. -/

lemma generate_eq_scan_err {cfg : Config} {ms : List (String × JValue)} {e : GenError}
    (hscan : scanRoot ms none none 1 = .error e) :
    elftool_generate cfg (some (.jobject ms)) = ("", .error e) := by
  simp only [elftool_generate, hscan]

lemma generate_eq_missingVersion {cfg : Config} {ms : List (String × JValue)}
    {jd : Option JValue} {en : Nat}
    (hscan : scanRoot ms none none 1 = .ok (none, jd, en)) :
    elftool_generate cfg (some (.jobject ms)) = ("", .error .missingVersion) := by
  simp only [elftool_generate, hscan]

lemma generate_eq_missingDevices {cfg : Config} {ms : List (String × JValue)}
    {jv : JValue} {en : Nat}
    (hscan : scanRoot ms none none 1 = .ok (some jv, none, en)) :
    elftool_generate cfg (some (.jobject ms)) = ("", .error .missingDevices) := by
  simp only [elftool_generate, hscan]

lemma generate_eq_badVersion {cfg : Config} {ms : List (String × JValue)}
    {jv jd : JValue} {en : Nat}
    (hscan : scanRoot ms none none 1 = .ok (some jv, some jd, en))
    (hv : jintVal jv ≠ cfg.MFT_VERSION) :
    elftool_generate cfg (some (.jobject ms)) =
      ("", .error (.invalidVersion (jintVal jv))) := by
  simp only [elftool_generate, hscan]
  rw [if_pos hv]

lemma generate_eq_tooMany {cfg : Config} {ms : List (String × JValue)}
    {jv jd : JValue} {en : Nat}
    (hscan : scanRoot ms none none 1 = .ok (some jv, some jd, en))
    (hv : jintVal jv = cfg.MFT_VERSION)
    (he : cfg.MFT_MAX_ENTRIES < en) :
    elftool_generate cfg (some (.jobject ms)) = ("", .error .tooManyEntries) := by
  simp only [elftool_generate, hscan]
  rw [if_neg (by simp [hv]), if_pos he]

lemma generate_eq_emit {cfg : Config} {ms : List (String × JValue)}
    {jv jd : JValue} {en : Nat} {w : String} {res : Except GenError Unit}
    (hscan : scanRoot ms none none 1 = .ok (some jv, some jd, en))
    (hv : jintVal jv = cfg.MFT_VERSION)
    (he : ¬ cfg.MFT_MAX_ENTRIES < en)
    (hemit : emitDevices cfg (jarrayElems jd) (out_header cfg en) = (w, res)) :
    elftool_generate cfg (some (.jobject ms)) =
      match res with
      | .error e => (w, .error e)
      | .ok _ => (w ++ out_footer, .ok ()) := by
  cases res with
  | error e =>
    simp only [elftool_generate, hscan, hemit]
    simp [hv, he]
  | ok u =>
    simp only [elftool_generate, hscan, hemit]
    simp [hv, he]

lemma generate_eq_notObject {cfg : Config} {root : JValue}
    (h : ∀ ms, root ≠ JValue.jobject ms) :
    elftool_generate cfg (some root) =
      ("", .error (.typeMismatch "(root)" "OBJECT" (jtypestr root))) := by
  cases root with
  | jobject ms => exact absurd rfl (h ms)
  | jnull => rfl
  | jtrue => rfl
  | jfalse => rfl
  | jstring s => rfl
  | jint i => rfl
  | jreal => rfl
  | jarray es => rfl

lemma generate_ok_strong {cfg : Config} {root : JValue}
    (h : (elftool_generate cfg (some root)).2 = .ok ()) :
    ∃ (ms : List (String × JValue)) (jd : JValue) (L : List (String × String)),
      root = JValue.jobject ms ∧
      lastField ms "version" none = some (.jint cfg.MFT_VERSION) ∧
      lastDevices ms = some jd ∧
      1 + devTotal ms ≤ cfg.MFT_MAX_ENTRIES ∧
      (jarrayElems jd).map tryRenderDevice = L.map some ∧
      (∀ p ∈ L, nameOk cfg p.1) ∧
      (elftool_generate cfg (some root)).1 =
        out_header cfg (1 + devTotal ms) ++
          strConcat (L.map fun p => out_entry p.1 p.2) ++ out_footer ∧
      (∀ p ∈ ms, p.1 = "version" ∨ p.1 = "devices") ∧
      (∀ p ∈ ms, p.1 = "version" → ∃ i : Int, p.2 = JValue.jint i) ∧
      (∀ p ∈ ms, p.1 = "devices" →
        ∃ es, p.2 = JValue.jarray es ∧ ∀ x ∈ es, ∃ dm, x = JValue.jobject dm) := by
  cases root with
  | jobject ms =>
    cases hscan : scanRoot ms none none 1 with
    | error e => rw [generate_eq_scan_err hscan] at h; simp at h
    | ok r =>
      obtain ⟨jv0, jd0, en⟩ := r
      cases jv0 with
      | none => rw [generate_eq_missingVersion hscan] at h; simp at h
      | some vv =>
        cases jd0 with
        | none => rw [generate_eq_missingDevices hscan] at h; simp at h
        | some dv =>
          by_cases hv : jintVal vv ≠ cfg.MFT_VERSION
          · rw [generate_eq_badVersion hscan hv] at h; simp at h
          · push_neg at hv
            by_cases he : cfg.MFT_MAX_ENTRIES < en
            · rw [generate_eq_tooMany hscan hv he] at h; simp at h
            · cases hemit : emitDevices cfg (jarrayElems dv) (out_header cfg en) with
              | mk w res =>
                have heq := generate_eq_emit hscan hv he hemit
                cases res with
                | error e => rw [heq] at h; simp at h
                | ok u =>
                  obtain ⟨L, hL1, hL2, hL3⟩ := emitDevices_ok hemit
                  obtain ⟨s1, s2, s3, s4, s5, s6⟩ := scanRoot_ok hscan
                  have hvv : vv = JValue.jint cfg.MFT_VERSION := by
                    rcases lastField_mem s1.symm with hm | hm
                    · obtain ⟨i, hi⟩ := s5 _ hm rfl
                      simp only at hi
                      rw [hi] at hv ⊢
                      rw [jintVal] at hv
                      rw [hv]
                    · simp at hm
                  have hen : en = 1 + devTotal ms := by
                    rw [s3]
                  refine ⟨ms, dv, L, rfl, ?_, ?_, ?_, hL1, hL2, ?_, s4, s5, s6⟩
                  · rw [← s1, hvv]
                  · rw [lastDevices, ← s2]
                  · omega
                  · rw [heq]
                    simp only
                    rw [hL3, hen, String.append_assoc]
  | jnull => simp [elftool_generate] at h
  | jtrue => simp [elftool_generate] at h
  | jfalse => simp [elftool_generate] at h
  | jstring s => simp [elftool_generate] at h
  | jint i => simp [elftool_generate] at h
  | jreal => simp [elftool_generate] at h
  | jarray es => simp [elftool_generate] at h

lemma generate_err_written {cfg : Config} {root : Option JValue} {e : GenError}
    (h : (elftool_generate cfg root).2 = .error e) :
    (elftool_generate cfg root).1 = "" ∨
      ∃ u, (elftool_generate cfg root).1 = u ++ ",\n" := by
  match root with
  | none => left; rfl
  | some (.jnull) => left; rfl
  | some (.jtrue) => left; rfl
  | some (.jfalse) => left; rfl
  | some (.jstring s) => left; rfl
  | some (.jint i) => left; rfl
  | some (.jreal) => left; rfl
  | some (.jarray es) => left; rfl
  | some (.jobject ms) =>
    cases hscan : scanRoot ms none none 1 with
    | error e2 => rw [generate_eq_scan_err hscan]; left; rfl
    | ok t =>
      obtain ⟨jv0, jd0, en⟩ := t
      cases jv0 with
      | none => rw [generate_eq_missingVersion hscan]; left; rfl
      | some vv =>
        cases jd0 with
        | none => rw [generate_eq_missingDevices hscan]; left; rfl
        | some dv =>
          by_cases hv : jintVal vv ≠ cfg.MFT_VERSION
          · rw [generate_eq_badVersion hscan hv]; left; rfl
          · push_neg at hv
            by_cases he : cfg.MFT_MAX_ENTRIES < en
            · rw [generate_eq_tooMany hscan hv he]; left; rfl
            · cases hemit : emitDevices cfg (jarrayElems dv) (out_header cfg en) with
              | mk w res =>
                have heq := generate_eq_emit hscan hv he hemit
                cases res with
                | error e2 =>
                  rw [heq]
                  right
                  obtain ⟨L, ds₁, ds₂, hsplit, hmap, hw⟩ := emitDevices_err hemit
                  simp only
                  rw [hw]
                  exact endsComma_append_concat L _ (out_header_endsComma cfg en)
                | ok u => rw [heq] at h; simp at h

lemma generate_prefix_full (cfg : Config) (root : Option JValue) :
    ∃ r, genFullTextOf cfg root = (elftool_generate cfg root).1 ++ r := by
  have hnil : ∀ s : String, s = "" ++ s := fun s => (String.empty_append s).symm
  match root with
  | none => exact ⟨"", rfl⟩
  | some (.jnull) => exact ⟨"", rfl⟩
  | some (.jtrue) => exact ⟨"", rfl⟩
  | some (.jfalse) => exact ⟨"", rfl⟩
  | some (.jstring s) => exact ⟨"", rfl⟩
  | some (.jint i) => exact ⟨"", rfl⟩
  | some (.jreal) => exact ⟨"", rfl⟩
  | some (.jarray es) => exact ⟨"", rfl⟩
  | some (.jobject ms) =>
    cases hscan : scanRoot ms none none 1 with
    | error e2 =>
      rw [generate_eq_scan_err hscan]
      simp only [genFullTextOf, hscan]
      exact ⟨"", rfl⟩
    | ok t =>
      obtain ⟨jv0, jd0, en⟩ := t
      cases jd0 with
      | none =>
        cases jv0 with
        | none =>
          rw [generate_eq_missingVersion hscan]
          simp only [genFullTextOf, hscan]
          exact ⟨"", rfl⟩
        | some vv =>
          rw [generate_eq_missingDevices hscan]
          simp only [genFullTextOf, hscan]
          exact ⟨"", rfl⟩
      | some dv =>
        have hfull : genFullTextOf cfg (some (.jobject ms)) =
            out_header cfg en ++
              strConcat ((jarrayElems dv).filterMap fun d =>
                (tryRenderDevice d).map fun p => out_entry p.1 p.2) ++ out_footer := by
          simp only [genFullTextOf, hscan]
        cases jv0 with
        | none =>
          rw [generate_eq_missingVersion hscan, hfull]
          exact ⟨_, hnil _⟩
        | some vv =>
          by_cases hv : jintVal vv ≠ cfg.MFT_VERSION
          · rw [generate_eq_badVersion hscan hv, hfull]
            exact ⟨_, hnil _⟩
          · push_neg at hv
            by_cases he : cfg.MFT_MAX_ENTRIES < en
            · rw [generate_eq_tooMany hscan hv he, hfull]
              exact ⟨_, hnil _⟩
            · cases hemit : emitDevices cfg (jarrayElems dv) (out_header cfg en) with
              | mk w res =>
                have heq := generate_eq_emit hscan hv he hemit
                cases res with
                | error e2 =>
                  rw [heq, hfull]
                  obtain ⟨L, ds₁, ds₂, hsplit, hmap, hw⟩ := emitDevices_err hemit
                  refine ⟨strConcat ((ds₂.filterMap fun d =>
                    (tryRenderDevice d).map fun p => out_entry p.1 p.2)) ++ out_footer, ?_⟩
                  simp only
                  rw [hw, hsplit, List.filterMap_append, strConcat_append,
                    filterMap_of_map_some hmap]
                  simp [String.append_assoc]
                | ok u =>
                  rw [heq, hfull]
                  obtain ⟨L, hL1, hL2, hL3⟩ := emitDevices_ok hemit
                  refine ⟨"", ?_⟩
                  simp only
                  rw [String.append_empty, hL3, filterMap_of_map_some hL1]

/-! Lemmas on the device-kind table and the modelled downstream artifacts. -/

lemma lookupCode_mem {kinds : List (Nat × String)} {s : String} {c : Nat}
    (h : lookupCode kinds s = some c) : (c, s) ∈ kinds := by
  induction kinds with
  | nil => simp [lookupCode] at h
  | cons p rest ih =>
    obtain ⟨c0, n0⟩ := p
    simp only [lookupCode] at h
    by_cases hn : n0 = s
    · rw [if_pos hn] at h
      obtain hc := Option.some.inj h
      exact List.mem_cons.mpr (Or.inl (by rw [← hc, hn]))
    · rw [if_neg hn] at h
      exact List.mem_cons.mpr (Or.inr (ih h))

lemma lookupName_isSome_of_mem {kinds : List (Nat × String)} {c : Nat} {s : String}
    (h : (c, s) ∈ kinds) : (lookupName kinds c).isSome := by
  induction kinds with
  | nil => simp at h
  | cons p rest ih =>
    obtain ⟨c0, n0⟩ := p
    simp only [lookupName]
    by_cases hc : c0 = c
    · simp [hc]
    · rw [if_neg hc]
      rcases List.mem_cons.mp h with h2 | h2
      · obtain ⟨h3, h4⟩ := Prod.mk.injEq .. ▸ h2.symm
        exact absurd h3 hc
      · exact ih h2

lemma lookupName_of_mem_nodup {kinds : List (Nat × String)} {c : Nat} {s : String}
    (hnd : (kinds.map Prod.fst).Nodup) (hm : (c, s) ∈ kinds) :
    lookupName kinds c = some s := by
  induction kinds with
  | nil => simp at hm
  | cons p rest ih =>
    obtain ⟨c0, n0⟩ := p
    simp only [List.map_cons, List.nodup_cons] at hnd
    simp only [lookupName]
    rcases List.mem_cons.mp hm with h2 | h2
    · obtain ⟨h3, h4⟩ := Prod.mk.injEq .. ▸ h2.symm
      rw [if_pos h3, h4]
    · have hcr : c ∈ rest.map Prod.fst := List.mem_map.mpr ⟨(c, s), h2, rfl⟩
      have hc0 : c0 ≠ c := fun he => hnd.1 (he ▸ hcr)
      rw [if_neg hc0]
      exact ih hnd.2 h2

lemma validate_tableOfPairs {cfg : Config} {L : List (String × String)}
    (hth : ∀ p ∈ cfg.kinds, p.1 < cfg.MFT_RESERVED_FIRST)
    (hcodes : ∀ p ∈ L, (lookupCode cfg.kinds p.2).isSome)
    (hmax : 1 + L.length ≤ cfg.MFT_MAX_ENTRIES) :
    mft_validate cfg (tableOfPairs cfg L) = true := by
  simp only [mft_validate, tableOfPairs, Bool.and_eq_true, decide_eq_true_eq,
    List.length_cons, List.length_map]
  refine ⟨⟨⟨by omega, by omega⟩, trivial⟩, trivial, ?_⟩
  rw [List.all_eq_true]
  intro en hen
  obtain ⟨p, hp, hpe⟩ := List.mem_map.mp hen
  obtain ⟨c, hc⟩ := Option.isSome_iff_exists.mp (hcodes p hp)
  have hmem := lookupCode_mem hc
  rw [← hpe]
  simp only [hc, Option.getD_some, Bool.and_eq_true, decide_eq_true_eq]
  exact ⟨hth _ hmem, lookupName_isSome_of_mem hmem⟩

lemma dumpEntriesFrom_pairs {cfg : Config}
    (hnd : (cfg.kinds.map Prod.fst).Nodup)
    (hth : ∀ p ∈ cfg.kinds, p.1 < cfg.MFT_RESERVED_FIRST) :
    ∀ (L : List (String × String)) (i total : Nat),
      total = i + L.length →
      (∀ p ∈ L, (lookupCode cfg.kinds p.2).isSome) →
      dumpEntriesFrom cfg total i
          (L.map fun p => MftEntry.mk p.1 ((lookupCode cfg.kinds p.2).getD 0)) =
        dumpPairsText L := by
  intro L
  induction L with
  | nil => intro i total htot hcodes; rfl
  | cons p rest ih =>
    intro i total htot hcodes
    obtain ⟨c, hc⟩ := Option.isSome_iff_exists.mp (hcodes p (List.mem_cons_self p rest))
    have hmem := lookupCode_mem hc
    have hlt : c < cfg.MFT_RESERVED_FIRST := hth _ hmem
    have hname : mft_type_to_string cfg c = p.2 := by
      rw [mft_type_to_string, lookupName_of_mem_nodup hnd hmem]
      rfl
    simp only [List.map_cons, dumpEntriesFrom, dumpEntryLine, hc, Option.getD_some]
    rw [if_neg (by omega)]
    cases rest with
    | nil =>
      have hi : i = total - 1 := by simp at htot; omega
      rw [if_pos hi, hname]
      simp [dumpPairsText, dumpDeviceLine, dumpEntriesFrom, String.append_empty,
        String.append_assoc]
    | cons q rest2 =>
      have hi : i ≠ total - 1 := by simp at htot; omega
      rw [if_neg hi, hname]
      rw [ih (i + 1) total (by simp at htot ⊢; omega)
        (fun r hr => hcodes r (List.mem_cons_of_mem p hr))]
      rfl

lemma dumpBody_tableOfPairs {cfg : Config} {L : List (String × String)}
    (hnd : (cfg.kinds.map Prod.fst).Nodup)
    (hth : ∀ p ∈ cfg.kinds, p.1 < cfg.MFT_RESERVED_FIRST)
    (hcodes : ∀ p ∈ L, (lookupCode cfg.kinds p.2).isSome) :
    dumpBody cfg (tableOfPairs cfg L) = dumpPairsText L := by
  simp only [dumpBody, tableOfPairs, dumpEntriesFrom, dumpEntryLine, le_refl, reduceIte]
  rw [dumpEntriesFrom_pairs hnd hth L 1 (1 + L.length) (by omega) hcodes]
  exact String.empty_append _

lemma tryRenderDevice_deviceJson (n t : String) :
    tryRenderDevice (deviceJson n t) = some (n, t) := rfl

lemma filterMap_tryRender_deviceJson (L : List (String × String)) :
    (L.map fun p => deviceJson p.1 p.2).filterMap tryRenderDevice = L := by
  induction L with
  | nil => rfl
  | cons p rest ih =>
    simp [List.filterMap_cons, tryRenderDevice_deviceJson, ih]

lemma docPairs_manifestJson (v : Int) (L : List (String × String)) :
    docPairs (manifestJson v L) = some L := by
  simp only [docPairs, manifestJson, lastDevices, lastField, reduceIte]
  simp only [jarrayElems, filterMap_tryRender_deviceJson]

lemma countDevObjects_all_objects {es : List JValue} :
    (∀ x ∈ es, ∃ dm, x = JValue.jobject dm) →
    ∀ n, countDevObjects es n = .ok (n + es.length) := by
  induction es with
  | nil => intro h n; rfl
  | cons x rest ih =>
    intro h n
    obtain ⟨dm, hdm⟩ := h x (List.mem_cons_self x rest)
    subst hdm
    simp only [countDevObjects]
    rw [ih (fun y hy => h y (List.mem_cons_of_mem _ hy)) (n + 1)]
    simp only [List.length_cons, Except.ok.injEq]
    omega

lemma checkDeviceFields_of_nameOk {cfg : Config} {n t : String} (h : nameOk cfg n) :
    checkDeviceFields cfg (some n) (some t) = .ok (n, t) := by
  obtain ⟨h1, h2, h3⟩ := h
  simp only [checkDeviceFields]
  rw [if_neg h1, if_neg (by omega), if_pos h3]

lemma emitDevices_deviceJson {cfg : Config} (L : List (String × String)) :
    (∀ p ∈ L, nameOk cfg p.1) →
    ∀ acc, emitDevices cfg (L.map fun p => deviceJson p.1 p.2) acc =
      (acc ++ strConcat (L.map fun p => out_entry p.1 p.2), .ok ()) := by
  induction L with
  | nil =>
    intro h acc
    simp [emitDevices, strConcat, String.append_empty]
  | cons p rest ih =>
    intro h acc
    have hscan : scanDevice [("name", JValue.jstring p.1), ("type", JValue.jstring p.2)]
        none none = .ok (some p.1, some p.2) := rfl
    have hstep : emitDevices cfg
        (deviceJson p.1 p.2 :: (rest.map fun p => deviceJson p.1 p.2)) acc =
        emitDevices cfg (rest.map fun p => deviceJson p.1 p.2) (acc ++ out_entry p.1 p.2) := by
      simp only [deviceJson, emitDevices, hscan,
        checkDeviceFields_of_nameOk (h p (List.mem_cons_self p rest))]
    rw [List.map_cons, hstep, ih (fun q hq => h q (List.mem_cons_of_mem p hq))
      (acc ++ out_entry p.1 p.2)]
    simp [strConcat, String.append_assoc]

lemma generate_manifestJson_ok {cfg : Config} {L : List (String × String)}
    (hnames : ∀ p ∈ L, nameOk cfg p.1)
    (hmax : 1 + L.length ≤ cfg.MFT_MAX_ENTRIES) :
    (elftool_generate cfg (some (manifestJson cfg.MFT_VERSION L))).2 = .ok () := by
  have hobjects : ∀ x ∈ (L.map fun p => deviceJson p.1 p.2), ∃ dm, x = JValue.jobject dm := by
    intro x hx
    obtain ⟨p, hp, hpd⟩ := List.mem_map.mp hx
    exact ⟨_, hpd.symm⟩
  have hcount := countDevObjects_all_objects hobjects 1
  have hscan : scanRoot [("version", JValue.jint cfg.MFT_VERSION),
      ("devices", JValue.jarray (L.map fun p => deviceJson p.1 p.2))] none none 1 =
      .ok (some (.jint cfg.MFT_VERSION),
        some (.jarray (L.map fun p => deviceJson p.1 p.2)), 1 + L.length) := by
    simp only [scanRoot, reduceIte, hcount]
    rw [if_neg (by decide)]
    simp
  have hemit := emitDevices_deviceJson L hnames
    (out_header cfg (1 + L.length))
  have hemit2 : emitDevices cfg
      (jarrayElems (JValue.jarray (L.map fun p => deviceJson p.1 p.2)))
      (out_header cfg (1 + L.length)) =
      (out_header cfg (1 + L.length) ++ strConcat (L.map fun p => out_entry p.1 p.2),
        .ok ()) := by
    simpa [jarrayElems] using hemit
  have heq := generate_eq_emit hscan (by rfl) (by omega) hemit2
  rw [manifestJson, heq]

/-! The claims. -/

/-- Claim C1: for every valid manifest document with no duplicate device
names (and recognized device kinds), compiling it and then validating and
rendering the resulting binary table yields a document with the same
`(name, type)` pairs in the original order, wrapped in the same
`(version, devices)` document shape the compiler consumes: the table built
from the compiled pairs passes `mft_validate`, `dump` renders exactly the
pair list in order inside the document shell, that rendering denotes the
document `manifestJson` whose pairs are the original list, and the compiler
accepts that document again. -/
theorem claim_C1 : ∀ (cfg : Config) (ms : List (String × JValue)) (es : List JValue)
    (L : List (String × String)),
    (∀ p ∈ cfg.kinds, p.1 < cfg.MFT_RESERVED_FIRST) →
    (cfg.kinds.map Prod.fst).Nodup →
    (elftool_generate cfg (some (.jobject ms))).2 = .ok () →
    countKey ms "devices" = 1 →
    lastDevices ms = some (.jarray es) →
    es.map tryRenderDevice = L.map some →
    (∀ p ∈ L, (lookupCode cfg.kinds p.2).isSome) →
    (L.map Prod.fst).Nodup →
    mft_validate cfg (tableOfPairs cfg L) = true ∧
    elftool_dump cfg (some (tableOfPairs cfg L)) =
      ⟨dumpHeaderText cfg ++ dumpPairsText L ++ dumpFooterText, 0, false, none, true⟩ ∧
    docPairs (manifestJson cfg.MFT_VERSION L) = some L ∧
    (elftool_generate cfg (some (manifestJson cfg.MFT_VERSION L))).2 = .ok () := by
  intro cfg ms es L hth hnd hok hone hlast hmap hcodes hnodup
  obtain ⟨ms', jd, L', hobj, hver, hdev, hmax, hmap', hnames', hw, hkeys, hvt, hdt⟩ :=
    generate_ok_strong hok
  obtain rfl := JValue.jobject.inj hobj
  have hjd : jd = JValue.jarray es := Option.some.inj (hdev.symm.trans hlast)
  subst hjd
  have hLL : L' = L := by
    have h2 : es.map tryRenderDevice = L'.map some := by
      simpa [jarrayElems] using hmap'
    have h3 : L'.map some = L.map some := h2.symm.trans hmap
    exact List.map_injective_iff.mpr (Option.some_injective _) h3
  have hLL2 : L = L' := hLL.symm
  subst hLL2
  have hdt2 : devTotal ms = es.length := by
    rw [lastDevices] at hlast
    simpa [jarrayElems] using devTotal_single hone hlast
  have hlenL : L.length = es.length := by
    have h2 := congrArg List.length hmap
    simpa using h2.symm
  have hmaxL : 1 + L.length ≤ cfg.MFT_MAX_ENTRIES := by omega
  have hv1 := validate_tableOfPairs hth hcodes hmaxL
  refine ⟨hv1, ?_, docPairs_manifestJson _ _, generate_manifestJson_ok hnames' hmaxL⟩
  have hd1 : elftool_dump cfg (some (tableOfPairs cfg L)) =
      ⟨dumpHeaderText cfg ++ dumpBody cfg (tableOfPairs cfg L) ++ dumpFooterText,
        0, false, none, true⟩ := by
    simp [elftool_dump, hv1]
  rw [hd1, dumpBody_tableOfPairs hnd hth hcodes]

/-- Claim C1 witness: the round trip evaluated on the single-device document
from the specification example (`eth0` of kind `NET_BASIC`). -/
theorem claim_C1_witness :
    mft_validate cfg0 (tableOfPairs cfg0 [("eth0", "NET_BASIC")]) = true ∧
    elftool_dump cfg0 (some (tableOfPairs cfg0 [("eth0", "NET_BASIC")])) =
      ⟨dumpHeaderText cfg0 ++ dumpPairsText [("eth0", "NET_BASIC")] ++ dumpFooterText,
        0, false, none, true⟩ ∧
    docPairs (manifestJson cfg0.MFT_VERSION [("eth0", "NET_BASIC")]) =
      some [("eth0", "NET_BASIC")] ∧
    (elftool_generate cfg0
      (some (manifestJson cfg0.MFT_VERSION [("eth0", "NET_BASIC")]))).2 = .ok () :=
  claim_C1 cfg0
    [("version", .jint 1), ("devices", .jarray [deviceJson "eth0" "NET_BASIC"])]
    [deviceJson "eth0" "NET_BASIC"] [("eth0", "NET_BASIC")]
    (by decide) (by decide) rfl rfl rfl rfl (by decide) (by decide)

/-- Claim C2 (code bug): on the input
`(version 1, devices = [(name "", type "X")])` the compiler rejects for the
empty name, but the output header (a non-empty partial fragment) has already
been committed to the output destination, contradicting the claim that no
partial output is committed on rejection. -/
theorem claim_C2 :
    elftool_generate cfg0 (some (.jobject [("version", .jint 1),
        ("devices", .jarray [.jobject [("name", .jstring ""), ("type", .jstring "X")]])])) =
      (out_header cfg0 2, .error .emptyName) ∧
    out_header cfg0 2 ≠ "" :=
  ⟨rfl, by decide⟩

/-- Claim C3: every document in one of the listed violation classes (missing
version, wrong version, missing devices, too many entries, bad device name,
unknown top-level or device key) is rejected with exit status 1; each class
produces its own diagnostic (exhibited on concrete documents, with the nine
diagnostic texts pairwise distinct); and no rejected run ever leaves the
output holding a complete generated file (one ending with the closing
footer), so no rejected run produces output acceptable downstream. -/
theorem claim_C3 :
    (∀ (cfg : Config) (ms : List (String × JValue)),
      Violation cfg ms → exitCode (elftool_generate cfg (some (.jobject ms))).2 = 1) ∧
    (elftool_generate cfg0 (some (.jobject [("devices", .jarray [])])) =
        ("", .error .missingVersion) ∧
      elftool_generate cfg0 (some (.jobject [("version", .jint 2),
          ("devices", .jarray [])])) =
        ("", .error (.invalidVersion 2)) ∧
      elftool_generate cfg0 (some (.jobject [("version", .jint 1)])) =
        ("", .error .missingDevices) ∧
      elftool_generate cfgSmall (some (.jobject [("version", .jint 1),
          ("devices", .jarray [.jobject [], .jobject []])])) =
        ("", .error .tooManyEntries) ∧
      (elftool_generate cfg0 (some (.jobject [("version", .jint 1), ("devices", .jarray
          [.jobject [("name", .jstring ""), ("type", .jstring "X")]])]))).2 =
        .error .emptyName ∧
      (elftool_generate cfgShortName (some (.jobject [("version", .jint 1), ("devices",
          .jarray [.jobject [("name", .jstring "abc"), ("type", .jstring "X")]])]))).2 =
        .error .nameTooLong ∧
      (elftool_generate cfg0 (some (.jobject [("version", .jint 1), ("devices", .jarray
          [.jobject [("name", .jstring "a-b"), ("type", .jstring "X")]])]))).2 =
        .error .nameNotAlnum ∧
      elftool_generate cfg0 (some (.jobject [("foo", .jnull)])) =
        ("", .error (.unknownKeyRoot "foo")) ∧
      (elftool_generate cfg0 (some (.jobject [("version", .jint 1), ("devices", .jarray
          [.jobject [("nam", .jstring "x")]])]))).2 =
        .error (.unknownKeyDevice "nam")) ∧
    ([genErrorMessage cfg0 .missingVersion, genErrorMessage cfg0 (.invalidVersion 2),
      genErrorMessage cfg0 .missingDevices, genErrorMessage cfg0 .tooManyEntries,
      genErrorMessage cfg0 .emptyName, genErrorMessage cfg0 .nameTooLong,
      genErrorMessage cfg0 .nameNotAlnum, genErrorMessage cfg0 (.unknownKeyRoot "foo"),
      genErrorMessage cfg0 (.unknownKeyDevice "nam")] : List String).Nodup ∧
    (∀ (cfg : Config) (root : Option JValue) (e : GenError),
      (elftool_generate cfg root).2 = .error e →
      ∀ u, (elftool_generate cfg root).1 ≠ u ++ out_footer) := by
  refine ⟨?_, ⟨rfl, rfl, rfl, rfl, rfl, rfl, rfl, rfl, rfl⟩, by decide, ?_⟩
  · intro cfg ms hviol
    cases h2 : (elftool_generate cfg (some (.jobject ms))).2 with
    | error e => rfl
    | ok u =>
      exfalso
      cases u
      obtain ⟨ms', jd, L, hobj, hver, hdev, hmax, hmap, hnames, hw, hkeys, hvt, hdt⟩ :=
        generate_ok_strong h2
      obtain rfl := JValue.jobject.inj hobj
      rcases hviol with h | h | h | h | h | h | h
      · rw [lastVersion] at h
        rw [h] at hver
        exact Option.noConfusion hver
      · obtain ⟨v, hv1, hv2⟩ := h
        rw [lastVersion] at hv1
        rw [hv1] at hver
        exact hv2 (Option.some.inj hver)
      · rw [h] at hdev
        exact Option.noConfusion hdev
      · obtain ⟨es, he1, he2⟩ := h
        rw [lastDevices] at he1
        rcases lastField_mem he1 with hm | hm
        · have h3 := mem_devTotal hm
          simp only [jarrayElems] at h3
          omega
        · exact Option.noConfusion hm
      · obtain ⟨jd2, hj1, d, hd, dm, hdm, s, hs1, hs2⟩ := h
        rw [hj1] at hdev
        obtain rfl := Option.some.inj hdev
        have hmem2 : tryRenderDevice d ∈ (jarrayElems jd2).map tryRenderDevice :=
          List.mem_map_of_mem _ hd
        rw [hmap] at hmem2
        obtain ⟨p, hp, hpd⟩ := List.mem_map.mp hmem2
        rw [hdm] at hpd
        cases hsd : scanDevice dm none none with
        | error e2 =>
          simp only [tryRenderDevice, hsd] at hpd
          exact Option.noConfusion hpd
        | ok r =>
          obtain ⟨rn, rt⟩ := r
          cases rn with
          | none =>
            simp only [tryRenderDevice, hsd] at hpd
            exact Option.noConfusion hpd
          | some n =>
            cases rt with
            | none =>
              simp only [tryRenderDevice, hsd] at hpd
              exact Option.noConfusion hpd
            | some t =>
              simp only [tryRenderDevice, hsd] at hpd
              obtain hpe := Option.some.inj hpd
              obtain ⟨hk1, hk2, hn, ht⟩ := scanDevice_ok hsd
              rw [hs1] at hn
              obtain rfl := Option.some.inj hn
              have h5 := hnames p hp
              rw [hpe] at h5
              exact hs2 h5
      · obtain ⟨p, hp, h1, h2b⟩ := h
        rcases hkeys p hp with h3 | h3
        · exact h1 h3
        · exact h2b h3
      · obtain ⟨jd2, hj1, d, hd, dm, hdm, q, hq, hq1, hq2⟩ := h
        rw [hj1] at hdev
        obtain rfl := Option.some.inj hdev
        have hmem2 : tryRenderDevice d ∈ (jarrayElems jd2).map tryRenderDevice :=
          List.mem_map_of_mem _ hd
        rw [hmap] at hmem2
        obtain ⟨p, hp, hpd⟩ := List.mem_map.mp hmem2
        rw [hdm] at hpd
        cases hsd : scanDevice dm none none with
        | error e2 =>
          simp only [tryRenderDevice, hsd] at hpd
          exact Option.noConfusion hpd
        | ok r =>
          obtain ⟨hk1, hk2, hn, ht⟩ := scanDevice_ok hsd
          rcases hk1 q hq with h3 | h3
          · exact hq1 h3
          · exact hq2 h3
  · intro cfg root e h u hcontra
    rcases generate_err_written h with h2 | h2
    · rw [h2] at hcontra
      exact empty_ne_footer u hcontra
    · obtain ⟨u2, hu2⟩ := h2
      rw [hu2] at hcontra
      exact comma_ne_footer u2 u hcontra

/-- Claim C3 witness: the rejection part applied to the concrete document
with a missing version, and the no-complete-output part applied to the
concrete parse-error input. -/
theorem claim_C3_witness :
    exitCode (elftool_generate cfg0 (some (.jobject [("devices", .jarray [])]))).2 = 1 ∧
    (elftool_generate cfg0 none).1 ≠ "x" ++ out_footer :=
  ⟨claim_C3.1 cfg0 [("devices", .jarray [])] (Or.inl rfl),
    claim_C3.2.2.2 cfg0 none .parseError rfl "x"⟩

/-- Claim C4 (amended): the presence checks come first — a root object whose
scan succeeds with `.version` present but `.devices` absent is rejected with
the missing-devices diagnostic even when the version value is wrong; the
version-value diagnostic fires when `.devices` is present. -/
theorem claim_C4 : ∀ (cfg : Config) (ms : List (String × JValue)) (jv : JValue)
    (jd : Option JValue) (en : Nat),
    scanRoot ms none none 1 = .ok (some jv, jd, en) →
    (jd = none →
      elftool_generate cfg (some (.jobject ms)) = ("", .error .missingDevices)) ∧
    (∀ d, jd = some d → jintVal jv ≠ cfg.MFT_VERSION →
      elftool_generate cfg (some (.jobject ms)) =
        ("", .error (.invalidVersion (jintVal jv)))) := by
  intro cfg ms jv jd en hscan
  constructor
  · intro hnone
    subst hnone
    exact generate_eq_missingDevices hscan
  · intro d hsome hv
    subst hsome
    exact generate_eq_badVersion hscan hv

/-- Claim C4 counterexample: the document `(version = 2)` (an integer
different from the supported constant, and no `.devices`) is rejected with
the missing-devices diagnostic, not the version diagnostic claimed. -/
theorem claim_C4_counterexample :
    elftool_generate cfg0 (some (.jobject [("version", .jint 2)])) =
      ("", .error .missingDevices) ∧
    GenError.missingDevices ≠ .invalidVersion 2 ∧
    genErrorMessage cfg0 .missingDevices ≠ genErrorMessage cfg0 (.invalidVersion 2) :=
  ⟨rfl, by decide, by decide⟩

/-- Claim C4 witness: the amended ordering evaluated on concrete documents:
wrong version with devices present gives the version diagnostic. -/
theorem claim_C4_witness :
    elftool_generate cfg0
      (some (.jobject [("version", .jint 2), ("devices", .jarray [])])) =
      ("", .error (.invalidVersion 2)) :=
  (claim_C4 cfg0 [("version", .jint 2), ("devices", .jarray [])]
    (.jint 2) (some (.jarray [])) 1 rfl).2 (.jarray []) rfl (by decide)

/-- Claim C5: when the root scan succeeds (so every `.devices` element is an
object) with the correct version and the running entry count exceeds
`MFT_MAX_ENTRIES`, the compiler rejects with the entry-count diagnostic —
no hypothesis constrains the inner contents of the device objects, so the
check is independent of per-entry name/type validity. -/
theorem claim_C5 : ∀ (cfg : Config) (ms : List (String × JValue)) (jv jd : JValue)
    (en : Nat),
    scanRoot ms none none 1 = .ok (some jv, some jd, en) →
    jintVal jv = cfg.MFT_VERSION →
    cfg.MFT_MAX_ENTRIES < en →
    elftool_generate cfg (some (.jobject ms)) = ("", .error .tooManyEntries) := by
  intro cfg ms jv jd en hscan hv he
  exact generate_eq_tooMany hscan hv he

/-- Claim C5 witness: with a maximum of 1 entry, a document with two device
objects — one carrying an unknown key, the other empty, so neither would
pass per-entry validation — is rejected with the entry-count diagnostic. -/
theorem claim_C5_witness :
    elftool_generate cfgSmall (some (.jobject [("version", .jint 1),
        ("devices", .jarray [.jobject [("bogus", .jnull)], .jobject []])])) =
      ("", .error .tooManyEntries) :=
  claim_C5 cfgSmall
    [("version", .jint 1), ("devices", .jarray [.jobject [("bogus", .jnull)], .jobject []])]
    (.jint 1) (.jarray [.jobject [("bogus", .jnull)], .jobject []]) 3
    rfl rfl (by decide)

/-- Claim C6: for every document gen accepts whose root carries exactly one
`.devices` member (the manifest document shape), the committed output is
exactly the header carrying the total entry count `1 + len(devices)`, one
`out_entry` line per device in input order with the extracted name and type
taken verbatim, and the fixed footer; the rendering is a pure function of
the document, hence byte-deterministic. -/
theorem claim_C6 : ∀ (cfg : Config) (ms : List (String × JValue)) (es : List JValue),
    (elftool_generate cfg (some (.jobject ms))).2 = .ok () →
    countKey ms "devices" = 1 →
    lastDevices ms = some (.jarray es) →
    ∃ L : List (String × String),
      es.map tryRenderDevice = L.map some ∧
      L.length = es.length ∧
      (elftool_generate cfg (some (.jobject ms))).1 =
        out_header cfg (1 + es.length) ++
          strConcat (L.map fun p => out_entry p.1 p.2) ++ out_footer := by
  intro cfg ms es hok hone hlast
  obtain ⟨ms', jd, L, hobj, hver, hdev, hmax, hmap, hnames, hw, hkeys, hvt, hdt⟩ :=
    generate_ok_strong hok
  obtain rfl := JValue.jobject.inj hobj
  have hjd : jd = JValue.jarray es := Option.some.inj (hdev.symm.trans hlast)
  subst hjd
  have hmap2 : es.map tryRenderDevice = L.map some := by
    simpa [jarrayElems] using hmap
  have hdt2 : devTotal ms = es.length := by
    rw [lastDevices] at hlast
    simpa [jarrayElems] using devTotal_single hone hlast
  refine ⟨L, hmap2, ?_, ?_⟩
  · have h2 := congrArg List.length hmap2
    simpa using h2.symm
  · rw [hw, hdt2]

/-- Claim C6 witness: the output evaluated on the one-device example
document. -/
theorem claim_C6_witness :
    ∃ L : List (String × String),
      ([deviceJson "eth0" "NET_BASIC"] : List JValue).map tryRenderDevice = L.map some ∧
      L.length = ([deviceJson "eth0" "NET_BASIC"] : List JValue).length ∧
      (elftool_generate cfg0 (some (.jobject [("version", .jint 1),
          ("devices", .jarray [deviceJson "eth0" "NET_BASIC"])]))).1 =
        out_header cfg0 (1 + ([deviceJson "eth0" "NET_BASIC"] : List JValue).length) ++
          strConcat (L.map fun p => out_entry p.1 p.2) ++ out_footer :=
  claim_C6 cfg0 [("version", .jint 1), ("devices", .jarray [deviceJson "eth0" "NET_BASIC"])]
    [deviceJson "eth0" "NET_BASIC"] rfl rfl rfl

/-- Claim C7: `dump` with no manifest note reports absence and returns
failure status without aborting and with nothing printed and nothing freed;
with a note failing validation it reports the distinct validation
diagnostic, frees the blob, returns failure status without aborting, and
prints nothing. -/
theorem claim_C7 : ∀ (cfg : Config) (m : Mft),
    elftool_dump cfg none = ⟨"", 1, false, some noManifestMsg, false⟩ ∧
    (mft_validate cfg m = false →
      elftool_dump cfg (some m) = ⟨"", 1, false, some validationFailedMsg, true⟩) ∧
    noManifestMsg ≠ validationFailedMsg := by
  intro cfg m
  refine ⟨rfl, ?_, by decide⟩
  intro h
  simp [elftool_dump, h]

/-- Claim C7 witness: the two failure paths evaluated on the empty note and
on a table whose declared entry count disagrees with its size. -/
theorem claim_C7_witness :
    elftool_dump cfg0 none = ⟨"", 1, false, some noManifestMsg, false⟩ ∧
    elftool_dump cfg0 (some ⟨1, 2, []⟩) = ⟨"", 1, false, some validationFailedMsg, true⟩ ∧
    noManifestMsg ≠ validationFailedMsg :=
  ⟨(claim_C7 cfg0 ⟨1, 2, []⟩).1, (claim_C7 cfg0 ⟨1, 2, []⟩).2.1 rfl,
    (claim_C7 cfg0 ⟨1, 2, []⟩).2.2⟩

/-- Claim C8: `abi` never fails on an unrecognized target value — any value
outside the five known identifiers renders as "unknown" with the version
printed as an unsigned integer and exit status 0 — while a missing ABI note
aborts the process (`errx`) with a message and exit status 1. -/
theorem claim_C8 : ∀ (cfg : Config) (t : Int) (v : Nat),
    (t ≠ cfg.HVT_ABI_TARGET → t ≠ cfg.SPT_ABI_TARGET → t ≠ cfg.VIRTIO_ABI_TARGET →
      t ≠ cfg.MUEN_ABI_TARGET → t ≠ cfg.GENODE_ABI_TARGET →
      abi_target_to_string cfg t = "unknown" ∧
      elftool_abi cfg (some ⟨t, v⟩) =
        ⟨"ABI target: unknown\nABI version: " ++ toString (v % 2 ^ 32) ++ "\n",
          0, false, none, true⟩) ∧
    elftool_abi cfg none = ⟨"", 1, true, some noAbiMsg, false⟩ := by
  intro cfg t v
  refine ⟨?_, rfl⟩
  intro h1 h2 h3 h4 h5
  have hu : abi_target_to_string cfg t = "unknown" := by
    simp [abi_target_to_string, h1, h2, h3, h4, h5]
  refine ⟨hu, ?_⟩
  simp only [elftool_abi, hu]
  rfl

/-- Claim C8 witness: the target value 999 (outside the five identifiers of
`cfg0`) renders as "unknown" and succeeds; the absent note aborts. -/
theorem claim_C8_witness :
    abi_target_to_string cfg0 999 = "unknown" ∧
    elftool_abi cfg0 (some ⟨999, 3⟩) =
      ⟨"ABI target: unknown\nABI version: " ++ toString ((3 : Nat) % 2 ^ 32) ++ "\n",
        0, false, none, true⟩ ∧
    elftool_abi cfg0 none = ⟨"", 1, true, some noAbiMsg, false⟩ :=
  ⟨((claim_C8 cfg0 999 3).1 (by decide) (by decide) (by decide) (by decide) (by decide)).1,
    ((claim_C8 cfg0 999 3).1 (by decide) (by decide) (by decide) (by decide) (by decide)).2,
    (claim_C8 cfg0 999 3).2⟩

/-- Claim C9 (amended): for every invocation whose source is openable, the
output file after the run exists and holds exactly the text the run
committed — a value independent of the previous file contents, because the
output was opened with truncation before parsing — and that text is always
a prefix of the full generated text for the document. -/
theorem claim_C9 : ∀ (cfg : Config) (p : Option JValue) (prevOut : Option String),
    (elftool_generate_fs cfg (.readable p) prevOut).1 =
      some (elftool_generate cfg p).1 ∧
    ∃ r, genFullTextOf cfg p = (elftool_generate cfg p).1 ++ r :=
  fun cfg p _ => ⟨rfl, generate_prefix_full cfg p⟩

/-- Claim C9 counterexample: when the source file cannot be opened — an
invocation with a writable output path — the run is rejected before the
output is ever opened, so the output keeps its previous contents (or does
not exist at all), contradicting the claim that after any rejection the
file exists and never holds the previous contents. -/
theorem claim_C9_counterexample :
    (elftool_generate_fs cfg0 .unreadable (some "previous contents")).1 =
      some "previous contents" ∧
    exitCode (elftool_generate_fs cfg0 .unreadable (some "previous contents")).2 = 1 ∧
    (elftool_generate_fs cfg0 .unreadable none).1 = none :=
  ⟨rfl, rfl, rfl⟩

/-- Claim C10: every validated binary table with entry count exactly 1 (the
reserved sentinel only) dumps successfully with exit status 0 and renders
the document shell with an empty devices array. -/
theorem claim_C10 : ∀ (cfg : Config) (m : Mft),
    mft_validate cfg m = true → m.entries = 1 →
    elftool_dump cfg (some m) =
      ⟨dumpHeaderText cfg ++ dumpPairsText [] ++ dumpFooterText, 0, false, none, true⟩ := by
  intro cfg m hval hone
  have h4 := hval
  simp only [mft_validate, Bool.and_eq_true, decide_eq_true_eq] at h4
  obtain ⟨⟨⟨hlen, hmax⟩, hver⟩, hmatch⟩ := h4
  rw [hone] at hlen
  obtain ⟨e0, he⟩ := List.length_eq_one.mp hlen
  rw [he] at hmatch
  simp only [List.all_nil, Bool.and_true, decide_eq_true_eq] at hmatch
  have hbody : dumpBody cfg m = "" := by
    rw [dumpBody, he, hone]
    simp [dumpEntriesFrom, dumpEntryLine, hmatch]
  simp [elftool_dump, hval, hbody, dumpPairsText, String.append_empty]

/-- Claim C10 witness: the sentinel-only table evaluated at the concrete
constants. -/
theorem claim_C10_witness :
    elftool_dump cfg0 (some ⟨1, 1, [⟨"", 1073741824⟩]⟩) =
      ⟨dumpHeaderText cfg0 ++ dumpPairsText [] ++ dumpFooterText, 0, false, none, true⟩ :=
  claim_C10 cfg0 ⟨1, 1, [⟨"", 1073741824⟩]⟩ rfl rfl

end Elftool
